import Mathlib

/-!
Shallow embedding of the NYCU-SDC CD-service deployment core.

The definitions below are translated from the Go sources:
  * the SSH command builders (package activity, SSHActivity methods),
  * the workflow sequencer (package workflow, CDWorkflow),
  * the SSH executor (package ssh, Client.Execute / executeWithContext),
  * the Infisical secret client (package infisical, FetchSecretsByMapping
    and fetchSecretRaw with its in-memory TTL cache).

Go maps are embedded as association lists in iteration order (for code
that ranges over a map) or as functions to Option (for code that only
performs keyed lookup and update); time is embedded as Nat seconds;
fallible calls and external effects are embedded as explicit oracle
arguments.
-/

/-- Character 0x27, the single-quote character. -/
def squoteC : Char := Char.ofNat 39

/-- Character 0x22, the double-quote character. -/
def dquoteC : Char := Char.ofNat 34

/-- Character 0x60, the backquote character. -/
def backqC : Char := Char.ofNat 96

/-- One-character string holding the single-quote character. -/
def squoteS : String := String.mk [squoteC]

/-- One-character string holding the double-quote character. -/
def dquoteS : String := String.mk [dquoteC]

/- Data model, from internal/domain/deploy.go. -/

/-- Embedding of domain.DeployMethod. -/
inductive DeployMethod where
  | deploy
  | cleanup
deriving DecidableEq

/-- Embedding of domain.SourceInfo (fields used by the activity layer). -/
structure SourceInfo where
  Title : String
  Repo : String
  Branch : String
  Commit : String
  PRNumber : String
deriving DecidableEq

/-- Embedding of domain.MetadataInfo. -/
structure MetadataInfo where
  ProjectName : String
  Component : String
  Environment : String
deriving DecidableEq

/-- Embedding of domain.SecretMapping. -/
structure SecretMapping where
  Path : String
  SecretName : String
  EnvName : String
deriving DecidableEq

/-- Embedding of domain.InjectSecretConfig. -/
structure InjectSecretConfig where
  Enable : Bool
  Project : String
  Environment : String
  Secrets : List SecretMapping
deriving DecidableEq

/-- Embedding of domain.SetupConfig. -/
structure SetupConfig where
  InjectSecret : InjectSecretConfig
deriving DecidableEq

/-- Embedding of domain.DomainConfig. -/
structure DomainConfig where
  Enable : Bool
  Title : String
  Name : String
  Value : String
deriving DecidableEq

/-- Embedding of domain.DiscordConfig. -/
structure DiscordConfig where
  Enable : Bool
  Channel : String
deriving DecidableEq

/-- Embedding of domain.PostActions. -/
structure PostActions where
  SetupDomain : DomainConfig
  CleanupDomain : DomainConfig
  NotifyDiscord : DiscordConfig
deriving DecidableEq

/-- Embedding of domain.DeployRequest. -/
structure DeployRequest where
  Source : SourceInfo
  Method : DeployMethod
  Metadata : MetadataInfo
  Setup : SetupConfig
  Post : PostActions
  TraceID : String
deriving DecidableEq

/-- Embedding of config.SSHConfig, reconstructed from its uses in the
activity and ssh packages (Host, Port, User, BasePath, PrivateKey). -/
structure SSHConfig where
  Host : String
  Port : Nat
  User : String
  BasePath : String
  PrivateKey : String
deriving DecidableEq

/- Secrets maps. Code that ranges over the Go map is embedded over the
iteration sequence, a list of key-value pairs. -/

/-- List of key-value pairs of a Go map, in iteration order. -/
abbrev SecretsList := List (String × String)

/-- Go map read access m[k]: the first binding of k, or the zero value
of string when k is absent. -/
def mapGet (m : SecretsList) (k : String) : String :=
  match m.lookup k with
  | some v => v
  | none => ""

/- Command builders, from the activity package (SSHActivity). -/

/-- Embedding of quoteShell: replace every single quote by the
five-character sequence quote, doublequote, quote, doublequote, quote
(the Go source replaces quote by quote-dquote-quote-dquote-quote),
working over the character list. -/
def escSQ : List Char → List Char
  | [] => []
  | c :: cs =>
    if c = squoteC then
      squoteC :: dquoteC :: squoteC :: dquoteC :: squoteC :: escSQ cs
    else
      c :: escSQ cs

/-- Embedding of quoteShell: escape the single quotes of s and wrap the
result in single quotes. -/
def quoteShell (s : String) : String :=
  String.mk (squoteC :: (escSQ s.data ++ [squoteC]))

/-- Validation-failure command returned by the builders: an explanatory
echo chained to exit 1. -/
def guardCmd (field : String) : String :=
  "echo " ++ squoteS ++ "Error: " ++ field ++ " is required but was empty"
    ++ squoteS ++ " && exit 1"

/-- Script name selection of buildScriptExecutionCommand. -/
def scriptNameFor (scriptType : String) : String :=
  if scriptType = "cleanup" then "cleanup.sh" else "deploy.sh"

/-- Request-derived environment entries of buildScriptExecutionCommand
(REPO_NAME, PR_NUMBER, TRACE_ID, ENVIRONMENT). -/
def baseEnvVars (req : DeployRequest) : List String :=
  ["REPO_NAME=" ++ quoteShell req.Source.Repo,
   "PR_NUMBER=" ++ quoteShell req.Source.PRNumber,
   "TRACE_ID=" ++ quoteShell req.TraceID,
   "ENVIRONMENT=" ++ quoteShell req.Metadata.Environment]

/-- Secret entries appended by the range loop of
buildScriptExecutionCommand: every pair except REPO_PRIVATE_KEY, in
iteration order. -/
def scriptEnvPairs (secrets : SecretsList) : SecretsList :=
  secrets.filter (fun kv => kv.1 != "REPO_PRIVATE_KEY")

/-- Environment-entry strings of buildScriptExecutionCommand, base
entries followed by the kept secret entries. -/
def envVarsOf (req : DeployRequest) (secrets : SecretsList) : List String :=
  baseEnvVars req ++
    (scriptEnvPairs secrets).map (fun kv => kv.1 ++ "=" ++ quoteShell kv.2)

/-- Embedding of buildScriptExecutionCommand. -/
def buildScriptExecutionCommand (deployDir scriptType : String)
    (req : DeployRequest) (secrets : SecretsList) : String :=
  let scriptName := scriptNameFor scriptType
  let envPfx := String.intercalate " " (envVarsOf req secrets)
  "cd " ++ deployDir ++ " && chmod +x " ++ scriptName ++ " && "
    ++ envPfx ++ " bash ./" ++ scriptName

/-- Embedding of buildRepoURL. -/
def buildRepoURL (repo : String) (isPrivate : Bool) : String :=
  if isPrivate then "git@github.com:" ++ repo ++ ".git"
  else "https://github.com/" ++ repo

/-- Embedding of strings.TrimSuffix. -/
def trimSuffix (s suf : String) : String :=
  if suf.data.isSuffixOf s.data then
    String.mk (s.data.take (s.data.length - suf.data.length))
  else s

/-- Embedding of buildPrivateRepoSSHConfig: stage the repository key
into a key file via printf and write an SSH client config beside it. -/
def buildPrivateRepoSSHConfig (sshDir privateKey : String) : List String :=
  if sshDir = "" then
    ["echo " ++ squoteS ++ "Error: sshDir is required but was empty"
      ++ squoteS ++ " && exit 1"]
  else if privateKey = "" then
    ["echo " ++ squoteS ++ "Error: privateKey is required but was empty"
      ++ squoteS ++ " && exit 1"]
  else
    let keyFile := sshDir ++ "/repo_private_key"
    let configFile := sshDir ++ "/config"
    let tmpDir := trimSuffix sshDir "/.ssh"
    ["mkdir -p " ++ sshDir,
     "cd " ++ sshDir,
     "printf " ++ squoteS ++ "%s\\n" ++ squoteS ++ " "
       ++ quoteShell privateKey ++ " > " ++ keyFile,
     "chmod 600 " ++ keyFile,
     "cat > " ++ configFile ++ " <<" ++ squoteS ++ "SSHCONFIG" ++ squoteS
       ++ "\nHost github.com\n    HostName github.com\n    User git\n    IdentityFile "
       ++ keyFile
       ++ "\n    IdentitiesOnly yes\n    StrictHostKeyChecking accept-new\nSSHCONFIG",
     "cd " ++ tmpDir]

/-- GIT_SSH_COMMAND option string prepended to git commands of a private
repository. -/
def gitPfxOf (hasPrivateKey : Bool) (tmpDir : String) : String :=
  if hasPrivateKey then
    "GIT_SSH_COMMAND=" ++ dquoteS ++ "ssh -F " ++ (tmpDir ++ "/.ssh")
      ++ "/config" ++ dquoteS ++ " "
  else ""

/-- Embedding of buildCloneCommands: a shallow branch clone, or else a
full clone with fetch and checkout of the commit. -/
def buildCloneCommands (repoURL repoDir branch commit : String)
    (hasPrivateKey : Bool) (tmpDir : String) : String :=
  let gitPfx := gitPfxOf hasPrivateKey tmpDir
  let mainClone := gitPfx ++ "git clone --depth=1 --branch "
    ++ quoteShell branch ++ " " ++ repoURL ++ " repo"
  let fallbackClone := gitPfx ++ "git clone " ++ repoURL
    ++ " repo --no-checkout && cd repo && git fetch origin "
    ++ quoteShell commit ++ " && git checkout " ++ quoteShell commit
    ++ " && cd .."
  "(" ++ mainClone ++ ") || (" ++ fallbackClone ++ ")"

/-- Command list assembled by buildDeployCommand in the validated case. -/
def deployCommands (cfg : SSHConfig) (req : DeployRequest)
    (secrets : SecretsList) : List String :=
  let tmpDir := cfg.BasePath ++ "/" ++ req.Metadata.Environment ++ "/"
    ++ req.Source.Repo
  let repoDir := tmpDir ++ "/repo"
  let deployDir := repoDir ++ "/.deploy/" ++ req.Metadata.Environment
  let hasPrivateKey := mapGet secrets "REPO_PRIVATE_KEY" != ""
  let repoURL := buildRepoURL req.Source.Repo hasPrivateKey
  ["rm -rf " ++ tmpDir, "mkdir -p " ++ tmpDir, "cd " ++ tmpDir]
    ++ (if hasPrivateKey then
          buildPrivateRepoSSHConfig (tmpDir ++ "/.ssh")
            (mapGet secrets "REPO_PRIVATE_KEY")
        else [])
    ++ [buildCloneCommands repoURL repoDir req.Source.Branch
          req.Source.Commit hasPrivateKey tmpDir]
    ++ [buildScriptExecutionCommand deployDir "deploy" req secrets]
    ++ ["rm -rf " ++ tmpDir]

/-- Embedding of buildDeployCommand: field validation guards, then the
assembled command list joined with the shell and-operator. -/
def buildDeployCommand (cfg : SSHConfig) (req : DeployRequest)
    (secrets : SecretsList) : String :=
  if req.Source.Repo = "" then guardCmd "Source.Repo"
  else if req.Metadata.Environment = "" then guardCmd "Metadata.Environment"
  else if req.Source.Branch = "" then guardCmd "Source.Branch"
  else if req.Source.Commit = "" then guardCmd "Source.Commit"
  else if cfg.BasePath = "" then guardCmd "SSH BasePath"
  else String.intercalate " && " (deployCommands cfg req secrets)

/-- Embedding of buildCleanupCommand: field validation guards, then an
existence-guarded cleanup script invocation followed by workspace
removal, joined with the shell and-operator. -/
def buildCleanupCommand (cfg : SSHConfig) (req : DeployRequest)
    (secrets : SecretsList) : String :=
  if req.Source.Repo = "" then guardCmd "Source.Repo"
  else if req.Metadata.Environment = "" then guardCmd "Metadata.Environment"
  else if cfg.BasePath = "" then guardCmd "SSH BasePath"
  else
    let tmpDir := cfg.BasePath ++ "/" ++ req.Metadata.Environment ++ "/"
      ++ req.Source.Repo
    let repoDir := tmpDir ++ "/repo"
    let deployDir := repoDir ++ "/.deploy/" ++ req.Metadata.Environment
    let scriptCmd := buildScriptExecutionCommand deployDir "cleanup" req secrets
    let ifBlock := "if [ -d " ++ deployDir ++ " ]; then cd " ++ deployDir
      ++ " && " ++ scriptCmd ++ "; fi"
    String.intercalate " && " [ifBlock, "rm -rf " ++ tmpDir]

/- POSIX shell word reading. A command word is read by a quote-aware
scanner; the value a POSIX shell delivers for a word is defined only
when every character of the word is literal (no expansion, no word
splitting), which is what the round-trip quoting law is about. -/

/-- Scanner mode: outside quotes, inside single quotes, inside double
quotes. -/
inductive QMode where
  | plain
  | single
  | double
deriving DecidableEq

/-- Characters that are not literal in an unquoted word position for a
POSIX shell (expansion or word-breaking characters). -/
def isShellSpecial (c : Char) : Bool :=
  c = ' ' || c = '\t' || c = '\n' || c = '$' || c = backqC || c = '\\'
    || c = ';' || c = '&' || c = '|' || c = '<' || c = '>' || c = '('
    || c = ')' || c = '*' || c = '?' || c = '[' || c = ']' || c = '#'
    || c = '~'

/-- Literal value of a shell word, when defined: quote-aware scan that
fails on any character a POSIX shell would expand or split on. Inside
double quotes the dollar, backquote and backslash characters stay
special and make the value non-literal. -/
def unq : QMode → List Char → Option (List Char)
  | .plain, [] => some []
  | .plain, c :: cs =>
    if c = squoteC then unq .single cs
    else if c = dquoteC then unq .double cs
    else if isShellSpecial c then none
    else (unq .plain cs).map (c :: ·)
  | .single, [] => none
  | .single, c :: cs =>
    if c = squoteC then unq .plain cs
    else (unq .single cs).map (c :: ·)
  | .double, [] => none
  | .double, c :: cs =>
    if c = dquoteC then unq .plain cs
    else if c = '$' || c = backqC || c = '\\' then none
    else (unq .double cs).map (c :: ·)

/-- Literal value delivered by a POSIX shell for a single word, when
every character of the word is literal. -/
def shellWordValue (s : String) : Option String :=
  (unq .plain s.data).map String.mk

/- Structured view of the built commands, used to state execution
properties. A command is a tree of primitive steps, and-chains,
or-else alternatives and directory-existence guards; rendering a tree
reproduces exactly the strings the Go builders produce. -/

/-- Primitive steps occurring in the built commands. -/
inductive Step where
  | rmrf (p : String)
  | mkdirp (p : String)
  | cd (p : String)
  | chmodx (f : String)
  | bashScript (envPfx script : String)
  | gitCloneShallow (gitPfx branchQ url : String)
  | gitCloneFull (gitPfx url : String)
  | gitFetch (commitQ : String)
  | gitCheckout (commitQ : String)
deriving DecidableEq

/-- Rendering of a primitive step to its command string. -/
def renderStep : Step → String
  | .rmrf p => "rm -rf " ++ p
  | .mkdirp p => "mkdir -p " ++ p
  | .cd p => "cd " ++ p
  | .chmodx f => "chmod +x " ++ f
  | .bashScript envPfx script => envPfx ++ " bash ./" ++ script
  | .gitCloneShallow gitPfx branchQ url =>
    gitPfx ++ "git clone --depth=1 --branch " ++ branchQ ++ " " ++ url ++ " repo"
  | .gitCloneFull gitPfx url => gitPfx ++ "git clone " ++ url ++ " repo --no-checkout"
  | .gitFetch commitQ => "git fetch origin " ++ commitQ
  | .gitCheckout commitQ => "git checkout " ++ commitQ

/-- Shell command trees: primitive steps, and-chains, or-else
alternatives, and if-directory-exists guards. -/
inductive ShCmd where
  | act (s : Step)
  | seqAnd (a b : ShCmd)
  | orElse (a b : ShCmd)
  | ifDir (p : String) (body : ShCmd)
deriving DecidableEq

/-- Rendering of a command tree, matching the string shapes produced by
the Go builders: and-chains joined with the shell and-operator, or-else
alternatives parenthesised around the shell or-operator, and guards as
an if-block on a directory test. -/
def render : ShCmd → String
  | .act s => renderStep s
  | .seqAnd a b => render a ++ " && " ++ render b
  | .orElse a b => "(" ++ render a ++ ") || (" ++ render b ++ ")"
  | .ifDir p body => "if [ -d " ++ p ++ " ]; then " ++ render body ++ "; fi"

/-- Execution environment for a command tree: which directories exist
and the exit status each primitive step produces when run. -/
structure World where
  dirExists : String → Bool
  stepStatus : Step → Nat

/-- POSIX execution of a command tree: result is the exit status and
the trace of primitive steps actually run. The and-chain runs its
second part only on status zero; the or-else runs its second part only
on nonzero status; a guard with a missing directory runs nothing and
has status zero. -/
def runSh (w : World) : ShCmd → Nat × List Step
  | .act s => (w.stepStatus s, [s])
  | .seqAnd a b =>
    let ra := runSh w a
    if ra.1 = 0 then
      let rb := runSh w b
      (rb.1, ra.2 ++ rb.2)
    else ra
  | .orElse a b =>
    let ra := runSh w a
    if ra.1 = 0 then ra
    else
      let rb := runSh w b
      (rb.1, ra.2 ++ rb.2)
  | .ifDir p body => if w.dirExists p then runSh w body else (0, [])

/-- Static list of the primitive steps occurring in a command tree. -/
def ShCmd.steps : ShCmd → List Step
  | .act s => [s]
  | .seqAnd a b => a.steps ++ b.steps
  | .orElse a b => a.steps ++ b.steps
  | .ifDir _ body => body.steps

/-- Test for a source-fetch (git clone) step. -/
def isCloneStep : Step → Bool
  | .gitCloneShallow .. => true
  | .gitCloneFull .. => true
  | _ => false

/-- Test for a script-invocation step. -/
def isScriptStep : Step → Bool
  | .bashScript .. => true
  | _ => false

/-- Right-nested and-chain of a nonempty command list. -/
def chainAnd (c : ShCmd) : List ShCmd → ShCmd
  | [] => c
  | d :: ds => .seqAnd c (chainAnd d ds)

/-- Structured view of buildScriptExecutionCommand. -/
def scriptCmdTree (deployDir scriptType : String) (req : DeployRequest)
    (secrets : SecretsList) : ShCmd :=
  let scriptName := scriptNameFor scriptType
  chainAnd (.act (.cd deployDir))
    [.act (.chmodx scriptName),
     .act (.bashScript (String.intercalate " " (envVarsOf req secrets)) scriptName)]

/-- Shallow-clone step of buildCloneCommands. -/
def mainCloneStep (repoURL branch : String) (hasPrivateKey : Bool)
    (tmpDir : String) : Step :=
  .gitCloneShallow (gitPfxOf hasPrivateKey tmpDir) (quoteShell branch) repoURL

/-- Structured view of the fallback alternative of buildCloneCommands:
full clone, enter the checkout, fetch and check out the commit, leave. -/
def fallbackCloneTree (repoURL commit : String) (hasPrivateKey : Bool)
    (tmpDir : String) : ShCmd :=
  chainAnd (.act (.gitCloneFull (gitPfxOf hasPrivateKey tmpDir) repoURL))
    [.act (.cd "repo"),
     .act (.gitFetch (quoteShell commit)),
     .act (.gitCheckout (quoteShell commit)),
     .act (.cd "..")]

/-- Structured view of buildCloneCommands: the shallow clone, or else
the fallback chain. -/
def cloneCmdTree (repoURL branch commit : String) (hasPrivateKey : Bool)
    (tmpDir : String) : ShCmd :=
  .orElse (.act (mainCloneStep repoURL branch hasPrivateKey tmpDir))
    (fallbackCloneTree repoURL commit hasPrivateKey tmpDir)

/-- Workspace path derived by the builders. -/
def tmpDirOf (cfg : SSHConfig) (req : DeployRequest) : String :=
  cfg.BasePath ++ "/" ++ req.Metadata.Environment ++ "/" ++ req.Source.Repo

/-- Deploy subdirectory path derived by the builders. -/
def deployDirOf (cfg : SSHConfig) (req : DeployRequest) : String :=
  tmpDirOf cfg req ++ "/repo" ++ "/.deploy/" ++ req.Metadata.Environment

/-- Structured view of the validated case of buildCleanupCommand: the
existence-guarded script invocation, then workspace removal. -/
def cleanupCmdTree (cfg : SSHConfig) (req : DeployRequest)
    (secrets : SecretsList) : ShCmd :=
  let tmpDir := tmpDirOf cfg req
  let deployDir := deployDirOf cfg req
  .seqAnd
    (.ifDir deployDir
      (.seqAnd (.act (.cd deployDir))
        (scriptCmdTree deployDir "cleanup" req secrets)))
    (.act (.rmrf tmpDir))

/- Workflow sequencer, from the workflow package (CDWorkflow). Each
ExecuteActivity call is embedded as one oracle-valued step; the trace
records the activity invocations in order. -/

/-- Activity invocations recorded by the sequencer. -/
inductive WfEvent where
  | fetchSecrets
  | sshDeploy
  | notifyFail (title : String)
  | dnsEnsure (name ip : String)
  | dnsRemove (name : String)
  | notifySuccess
deriving DecidableEq

/-- Test for a failure-notification invocation. -/
def isNotifyFail : WfEvent → Bool
  | .notifyFail _ => true
  | _ => false

/-- Outcomes of the activities a run may invoke. Notification outcomes
are listed for completeness; CDWorkflow ignores them for control flow. -/
structure WfOracle where
  fetchResult : Except String SecretsList
  sshResult : Except String String
  dnsResult : Except String Unit
  notifyFailResult : Except String Unit
  notifySuccessResult : Except String Unit

/-- DNS activity invocations of step 3 of CDWorkflow: an ensure-record
call for a deploy with SetupDomain enabled and both name and value
nonempty, a remove-record call for a cleanup with CleanupDomain enabled
and a nonempty name, and nothing otherwise. Failures of these calls are
logged and ignored. -/
def dnsEvents (req : DeployRequest) : List WfEvent :=
  if req.Method = .deploy && req.Post.SetupDomain.Enable then
    if req.Post.SetupDomain.Name != "" && req.Post.SetupDomain.Value != "" then
      [.dnsEnsure req.Post.SetupDomain.Name req.Post.SetupDomain.Value]
    else []
  else if req.Method = .cleanup && req.Post.CleanupDomain.Enable then
    if req.Post.CleanupDomain.Name != "" then
      [.dnsRemove req.Post.CleanupDomain.Name]
    else []
  else []

/-- Steps 2 to 4 of CDWorkflow: remote execution (hard stop with one
failure notification on error), the DNS step (errors ignored), and the
optional success notification (errors ignored). -/
def workflowAfterSecrets (req : DeployRequest) (o : WfOracle)
    (events : List WfEvent) : Except String Unit × List WfEvent :=
  match o.sshResult with
  | .error e =>
    (.error e, events ++ [.sshDeploy, .notifyFail "Deployment Failed"])
  | .ok _ =>
    let ev := events ++ [.sshDeploy] ++ dnsEvents req
      ++ (if req.Post.NotifyDiscord.Enable then [.notifySuccess] else [])
    (.ok (), ev)

/-- Embedding of CDWorkflow: optional secret fetch (hard stop with one
failure notification on error), then remote execution, DNS and
notification steps. Result is the workflow return value and the trace
of activity invocations. -/
def CDWorkflow (req : DeployRequest) (o : WfOracle) :
    Except String Unit × List WfEvent :=
  if req.Setup.InjectSecret.Enable then
    match o.fetchResult with
    | .error e =>
      (.error e, [.fetchSecrets, .notifyFail "Failed to fetch secrets"])
    | .ok _ => workflowAfterSecrets req o [.fetchSecrets]
  else workflowAfterSecrets req o []

/- Remote executor, from the ssh package (Client). -/

/-- Outcome of session.CombinedOutput inside the execution goroutine:
the combined output captured by the session and the command error, if
any. -/
structure ExecOutcome where
  output : String
  err : Option String
deriving DecidableEq

/-- Embedding of executeWithContext: the select over context
cancellation and command completion. When the context is done first the
function returns the context error with an empty output, discarding the
captured output; otherwise it returns the captured output and the
command error. -/
def executeWithContext (ctxDoneFirst : Bool) (ctxErr : String)
    (res : ExecOutcome) : String × Option String :=
  if ctxDoneFirst then ("", some ctxErr)
  else (res.output, res.err)

/-- Embedding of the tail of Client.Execute after session setup: run the
command through executeWithContext and, on error, wrap the error while
returning the output value executeWithContext produced. -/
def executeTail (ctxDoneFirst : Bool) (ctxErr : String)
    (res : ExecOutcome) : String × Option String :=
  let r := executeWithContext ctxDoneFirst ctxErr res
  match r.2 with
  | some e =>
    (r.1, some ("failed to execute command (exit code may indicate specific error): " ++ e))
  | none => (r.1, none)

/-- Keys Client.Execute attempts to push through the native Setenv
mechanism of the transport: every key of the envVars map it receives
(the range loop over envVars). -/
def executeSetenvKeys (envVars : SecretsList) : List String :=
  envVars.map Prod.fst

/-- Embedding of the call RunSSHDeploy makes into the executor: after
field validation, the built command (deploy or cleanup by method) paired
with the full secrets map, which is passed unfiltered as the envVars
argument of Execute. Validation failure yields none. -/
def runSSHDeployCall (cfg : SSHConfig) (req : DeployRequest)
    (secrets : SecretsList) : Option (String × SecretsList) :=
  if req.Source.Repo = "" then none
  else if req.Metadata.Environment = "" then none
  else if req.Source.Branch = "" then none
  else if req.Source.Commit = "" then none
  else if cfg.BasePath = "" then none
  else if req.Method = .deploy then
    some (buildDeployCommand cfg req secrets, secrets)
  else
    some (buildCleanupCommand cfg req secrets, secrets)

/- Secret client, from the infisical package. -/

/-- Embedding of cacheItem: the stored secrets and the expiry instant. -/
structure CacheItem where
  secrets : SecretsList
  expiresAt : Nat
deriving DecidableEq

/-- In-memory cache state: the items map, keyed by cache key. -/
def CacheState := String → Option CacheItem

/-- Cache TTL of five minutes, in seconds. -/
def cacheTTL : Nat := 300

/-- Cache key of fetchSecretRaw: workspace, environment, path and name
joined with colons. -/
def rawCacheKey (workspaceSlug environment secretPath secretName : String) :
    String :=
  workspaceSlug ++ ":" ++ environment ++ ":" ++ secretPath ++ ":" ++ secretName

/-- Embedding of fetchSecretRaw: return the cached value when an entry
under the cache key holds the secret name and its expiry is strictly in
the future; otherwise perform the upstream fetch (the oracle), caching
a successful result under the cache key with a fresh expiry. The cache
is never purged; expired entries simply stop being returned. -/
def fetchSecretRaw (net : Except String String) (now : Nat)
    (cache : CacheState)
    (workspaceSlug environment secretName secretPath : String) :
    Except String String × CacheState :=
  let cacheKey := rawCacheKey workspaceSlug environment secretPath secretName
  let cachedHit : Option String :=
    match cache cacheKey with
    | some item =>
      if now < item.expiresAt then item.secrets.lookup secretName else none
    | none => none
  match cachedHit with
  | some v => (.ok v, cache)
  | none =>
    match net with
    | .error e => (.error e, cache)
    | .ok v =>
      (.ok v,
       fun k =>
         if k = cacheKey then
           some ⟨[(secretName, v)], now + cacheTTL⟩
         else cache k)

/-- Embedding of the loop body accumulator of FetchSecretsByMapping:
fetch each mapping in order, stopping at the first error, binding the
environment name of each mapping to its fetched value (later bindings
overwrite earlier ones). The result map is embedded as a function. -/
def fetchByMappingGo (fetch : SecretMapping → Except String String) :
    List SecretMapping → (String → Option String) →
    Except String (String → Option String)
  | [], acc => .ok acc
  | m :: ms, acc =>
    match fetch m with
    | .error e =>
      .error ("failed to fetch secret " ++ m.SecretName ++ " from path "
        ++ m.Path ++ ": " ++ e)
    | .ok v =>
      fetchByMappingGo fetch ms
        (fun k => if k = m.EnvName then some v else acc k)

/-- Embedding of FetchSecretsByMapping: fold the mappings into an
initially empty result map. -/
def FetchSecretsByMapping (fetch : SecretMapping → Except String String)
    (mappings : List SecretMapping) :
    Except String (String → Option String) :=
  fetchByMappingGo fetch mappings (fun _ => none)

/- Helper lemmas. -/

/-- Unfolding of String.intercalate on a two-element list. -/
theorem intercalate_pair (sep a b : String) :
    String.intercalate sep [a, b] = a ++ sep ++ b := rfl

/-- The double-quote character differs from the single-quote character. -/
theorem dquoteC_ne_squoteC : dquoteC ≠ squoteC := by decide

/-- Scanning the escaped form of a string inside single quotes up to the
closing quote recovers the string exactly. -/
theorem unq_single_esc (cs : List Char) :
    unq .single (escSQ cs ++ [squoteC]) = some cs := by
  induction cs with
  | nil => simp [escSQ, unq]
  | cons c cs ih =>
    by_cases hc : c = squoteC
    · subst hc
      have h1 : dquoteC ≠ squoteC := by decide
      have h2 : squoteC ≠ dquoteC := by decide
      have h3 : (squoteC = '$' || squoteC = backqC || squoteC = '\\') = false := by
        decide
      simp [escSQ, unq, h1, h2, h3, ih]
    · simp [escSQ, hc, unq, ih]

/-- Round-trip law of quoteShell: the literal value a POSIX shell reads
from a quoteShell-quoted word is the original string, byte for byte. -/
theorem shellWordValue_quoteShell (s : String) :
    shellWordValue (quoteShell s) = some s := by
  have h : unq .plain (squoteC :: (escSQ s.data ++ [squoteC])) =
      unq .single (escSQ s.data ++ [squoteC]) := by
    simp [unq]
  have hmk : String.mk s.data = s := by cases s; rfl
  simp [shellWordValue, quoteShell, h, unq_single_esc, hmk]

/-- Sample deploy request used to instantiate universally quantified
statements. -/
def reqS : DeployRequest :=
  { Source := { Title := "t", Repo := "org/app", Branch := "main",
                Commit := "abc123", PRNumber := "7" },
    Method := .deploy,
    Metadata := { ProjectName := "p", Component := "c", Environment := "dev" },
    Setup := { InjectSecret := { Enable := true, Project := "pr",
                                 Environment := "dev", Secrets := [] } },
    Post := { SetupDomain := { Enable := false, Title := "", Name := "", Value := "" },
              CleanupDomain := { Enable := false, Title := "", Name := "", Value := "" },
              NotifyDiscord := { Enable := false, Channel := "" } },
    TraceID := "tr" }

/-- Sample SSH configuration used to instantiate universally quantified
statements. -/
def cfgS : SSHConfig :=
  { Host := "h", Port := 22, User := "u", BasePath := "/srv/cd", PrivateKey := "k" }

/-- Secret value with a single quote and a dollar sign. -/
def obrienVal : String := "O" ++ squoteS ++ "Brien$ecret"

/-- C1. Every secret value (in particular any value containing single
quotes, double quotes, dollar signs, backquotes or semicolons) is
carried by buildDeployCommand and buildScriptExecutionCommand as the
environment entry key=quoteShell(value), and the quoted word reads back
under POSIX shell quoting removal to the exact original value. -/
theorem secret_env_roundtrip (req : DeployRequest) (secrets : SecretsList)
    (k v : String) (hk : (k, v) ∈ secrets) (hnk : k ≠ "REPO_PRIVATE_KEY") :
    (k ++ "=" ++ quoteShell v) ∈ envVarsOf req secrets ∧
    shellWordValue (quoteShell v) = some v := by
  refine ⟨?_, shellWordValue_quoteShell v⟩
  have hmem : (k, v) ∈ scriptEnvPairs secrets := by
    simp only [scriptEnvPairs, List.mem_filter]
    exact ⟨hk, by simp [bne_iff_ne, hnk]⟩
  simp only [envVarsOf, List.mem_append]
  right
  exact List.mem_map.mpr ⟨(k, v), hmem, rfl⟩

/-- Witness for C1 at the value O-quote-Brien-dollar-ecret. -/
theorem secret_env_roundtrip_witness :
    (("DB_PASS" ++ "=" ++ quoteShell obrienVal)
        ∈ envVarsOf reqS [("DB_PASS", obrienVal)] ∧
      shellWordValue (quoteShell obrienVal) = some obrienVal) :=
  secret_env_roundtrip reqS [("DB_PASS", obrienVal)] "DB_PASS" obrienVal
    (by simp) (by decide)

/- C3: validation guards. -/

/-- The five validation-failure commands the builders can return. -/
def guardSet : List String :=
  [guardCmd "Source.Repo", guardCmd "Metadata.Environment",
   guardCmd "Source.Branch", guardCmd "Source.Commit", guardCmd "SSH BasePath"]

/-- No guard command contains the destructive-removal token. -/
theorem guard_no_rmrf : ∀ g ∈ guardSet, ¬ "rm -rf".data <:+: g.data := by
  decide

/-- C3. When any required field is empty, buildDeployCommand returns one
of the explanatory echo-and-exit guards, which contains no destructive
removal; buildCleanupCommand does the same for its required fields. -/
theorem empty_fields_guarded (cfg : SSHConfig) (req : DeployRequest)
    (secrets : SecretsList)
    (h : req.Source.Repo = "" ∨ req.Metadata.Environment = "" ∨
      req.Source.Branch = "" ∨ req.Source.Commit = "" ∨ cfg.BasePath = "") :
    (buildDeployCommand cfg req secrets ∈ guardSet ∧
      ¬ "rm -rf".data <:+: (buildDeployCommand cfg req secrets).data) ∧
    ((req.Source.Repo = "" ∨ req.Metadata.Environment = "" ∨ cfg.BasePath = "") →
      buildCleanupCommand cfg req secrets ∈ guardSet ∧
      ¬ "rm -rf".data <:+: (buildCleanupCommand cfg req secrets).data) := by
  constructor
  · have hg : buildDeployCommand cfg req secrets ∈ guardSet := by
      by_cases h1 : req.Source.Repo = ""
      · simp [buildDeployCommand, h1, guardSet]
      by_cases h2 : req.Metadata.Environment = ""
      · simp [buildDeployCommand, h1, h2, guardSet]
      by_cases h3 : req.Source.Branch = ""
      · simp [buildDeployCommand, h1, h2, h3, guardSet]
      by_cases h4 : req.Source.Commit = ""
      · simp [buildDeployCommand, h1, h2, h3, h4, guardSet]
      by_cases h5 : cfg.BasePath = ""
      · simp [buildDeployCommand, h1, h2, h3, h4, h5, guardSet]
      · rcases h with h | h | h | h | h <;> contradiction
    exact ⟨hg, guard_no_rmrf _ hg⟩
  · intro hc
    have hg : buildCleanupCommand cfg req secrets ∈ guardSet := by
      by_cases h1 : req.Source.Repo = ""
      · simp [buildCleanupCommand, h1, guardSet]
      by_cases h2 : req.Metadata.Environment = ""
      · simp [buildCleanupCommand, h1, h2, guardSet]
      by_cases h5 : cfg.BasePath = ""
      · simp [buildCleanupCommand, h1, h2, h5, guardSet]
      · rcases hc with h | h | h <;> contradiction
    exact ⟨hg, guard_no_rmrf _ hg⟩

/-- Request with an empty commit field, used to exercise the guards. -/
def reqEmptyCommit : DeployRequest :=
  { reqS with Source := { reqS.Source with Commit := "" } }

/-- Witness for C3 at a request whose commit field is empty. -/
theorem empty_fields_guarded_witness :
    (buildDeployCommand cfgS reqEmptyCommit [] ∈ guardSet ∧
      ¬ "rm -rf".data <:+: (buildDeployCommand cfgS reqEmptyCommit []).data) ∧
    ((reqEmptyCommit.Source.Repo = "" ∨
        reqEmptyCommit.Metadata.Environment = "" ∨ cfgS.BasePath = "") →
      buildCleanupCommand cfgS reqEmptyCommit [] ∈ guardSet ∧
      ¬ "rm -rf".data <:+: (buildCleanupCommand cfgS reqEmptyCommit []).data) :=
  empty_fields_guarded cfgS reqEmptyCommit []
    (Or.inr (Or.inr (Or.inr (Or.inl (by decide)))))

/- C2: determinism of command building against map enumeration order. -/

/-- Map lookup agrees across permutations of an association list with
distinct keys. -/
theorem lookup_perm_of_nodup :
    ∀ {l1 l2 : SecretsList}, l1.Perm l2 → ((l1.map Prod.fst).Nodup) →
      ∀ k, l1.lookup k = l2.lookup k := by
  intro l1 l2 hp
  induction hp with
  | nil => intro _ _; rfl
  | cons a _ ih =>
    intro hnd k
    simp only [List.map_cons, List.nodup_cons] at hnd
    by_cases hk : k = a.1
    · have hb : (k == a.1) = true := beq_iff_eq.mpr hk
      simp [List.lookup, hb]
    · have hb : (k == a.1) = false := beq_eq_false_iff_ne.mpr hk
      simp [List.lookup, hb, ih hnd.2 k]
  | swap a b t =>
    intro hnd k
    simp only [List.map_cons, List.nodup_cons, List.mem_cons] at hnd
    have hab : b.1 ≠ a.1 := fun h => hnd.1 (Or.inl h)
    by_cases hkb : k = b.1
    · have h1 : (k == b.1) = true := beq_iff_eq.mpr hkb
      have h2 : (k == a.1) = false := beq_eq_false_iff_ne.mpr (by rw [hkb]; exact hab)
      simp [List.lookup, h1, h2]
    · have h1 : (k == b.1) = false := beq_eq_false_iff_ne.mpr hkb
      by_cases hka : k = a.1
      · have h2 : (k == a.1) = true := beq_iff_eq.mpr hka
        simp [List.lookup, h1, h2]
      · have h2 : (k == a.1) = false := beq_eq_false_iff_ne.mpr hka
        simp [List.lookup, h1, h2]
  | trans h1 _ ih1 ih2 =>
    intro hnd k
    have hnd2 := ((h1.map Prod.fst).nodup_iff).mp hnd
    exact (ih1 hnd k).trans (ih2 hnd2 k)

set_option maxRecDepth 100000 in
/-- Counterexample to C2: the same secrets map, enumerated in the two
orders Go map iteration may produce, yields different command strings. -/
theorem build_command_order_sensitive :
    ([("A", "1"), ("B", "2")] : SecretsList).Perm [("B", "2"), ("A", "1")] ∧
    (([("A", "1"), ("B", "2")] : SecretsList).map Prod.fst).Nodup ∧
    buildDeployCommand cfgS reqS [("A", "1"), ("B", "2")] ≠
      buildDeployCommand cfgS reqS [("B", "2"), ("A", "1")] :=
  ⟨List.Perm.swap ("B", "2") ("A", "1") [], by decide, by decide⟩

/-- C2 amended. Building the command twice from the same request and
the same secrets enumeration is byte-identical, and for a secrets map
with at most one entry besides REPO_PRIVATE_KEY the command string is
independent of the enumeration order; with two or more such entries
different enumeration orders can differ (see the counterexample). -/
theorem build_command_deterministic (cfg : SSHConfig) (req : DeployRequest)
    (l1 l2 : SecretsList) (hperm : l1.Perm l2)
    (hnd : (l1.map Prod.fst).Nodup)
    (hlen : (scriptEnvPairs l1).length ≤ 1) :
    buildDeployCommand cfg req l1 = buildDeployCommand cfg req l2 := by
  have hpf : (scriptEnvPairs l1).Perm (scriptEnvPairs l2) := hperm.filter _
  have heq : scriptEnvPairs l1 = scriptEnvPairs l2 := by
    rcases hl : scriptEnvPairs l1 with _ | ⟨a, _ | ⟨b, t⟩⟩
    · rw [hl] at hpf
      exact hpf.nil_eq
    · rw [hl] at hpf
      exact (List.singleton_perm.mp hpf)
    · rw [hl] at hlen
      simp at hlen
  have h1 : mapGet l1 "REPO_PRIVATE_KEY" = mapGet l2 "REPO_PRIVATE_KEY" := by
    simp [mapGet, lookup_perm_of_nodup hperm hnd]
  have h2 : envVarsOf req l1 = envVarsOf req l2 := by
    simp [envVarsOf, heq]
  have h3 : ∀ dd st, buildScriptExecutionCommand dd st req l1 =
      buildScriptExecutionCommand dd st req l2 := by
    intro dd st
    simp [buildScriptExecutionCommand, h2]
  simp [buildDeployCommand, deployCommands, h1, h3]

/-- Witness for the amended C2 on a one-secret map. -/
theorem build_command_deterministic_witness :
    buildDeployCommand cfgS reqS [("A", "1")] =
      buildDeployCommand cfgS reqS [("A", "1")] :=
  build_command_deterministic cfgS reqS [("A", "1")] [("A", "1")]
    (List.Perm.refl _) (by decide) (by decide)

/- C4: sequencer failure paths. -/

/-- C4. A run with secret injection enabled whose fetch fails returns
that error after exactly one failure-notification attempt; a run whose
remote execution succeeds returns success even when its DNS step fails. -/
theorem workflow_failure_paths
    (req1 : DeployRequest) (o1 : WfOracle) (e : String)
    (req2 : DeployRequest) (o2 : WfOracle) (s2 : SecretsList)
    (out2 e2 : String)
    (h1 : req1.Setup.InjectSecret.Enable = true)
    (h2 : o1.fetchResult = .error e)
    (h3 : req2.Setup.InjectSecret.Enable = true → o2.fetchResult = .ok s2)
    (h4 : o2.sshResult = .ok out2)
    (h5 : o2.dnsResult = .error e2) :
    ((CDWorkflow req1 o1).1 = .error e ∧
      ((CDWorkflow req1 o1).2.countP isNotifyFail) = 1) ∧
    (CDWorkflow req2 o2).1 = .ok () := by
  refine ⟨?_, ?_⟩
  · simp [CDWorkflow, h1, h2, isNotifyFail]
  · by_cases hen : req2.Setup.InjectSecret.Enable = true
    · simp [CDWorkflow, hen, h3 hen, workflowAfterSecrets, h4]
    · simp [CDWorkflow, hen, workflowAfterSecrets, h4]

/-- Oracle with a failing secret fetch. -/
def oracleFetchFail : WfOracle :=
  { fetchResult := .error "infisical down",
    sshResult := .ok "",
    dnsResult := .ok (),
    notifyFailResult := .ok (),
    notifySuccessResult := .ok () }

/-- Oracle with a successful run whose DNS step fails. -/
def oracleDnsFail : WfOracle :=
  { fetchResult := .ok [("A", "1")],
    sshResult := .ok "deployed",
    dnsResult := .error "cloudflare down",
    notifyFailResult := .ok (),
    notifySuccessResult := .ok () }

/-- Witness for C4 at the two concrete oracles. -/
theorem workflow_failure_paths_witness :
    ((CDWorkflow reqS oracleFetchFail).1 = .error "infisical down" ∧
      ((CDWorkflow reqS oracleFetchFail).2.countP isNotifyFail) = 1) ∧
    (CDWorkflow reqS oracleDnsFail).1 = .ok () :=
  workflow_failure_paths reqS oracleFetchFail "infisical down"
    reqS oracleDnsFail [("A", "1")] "deployed" "cloudflare down"
    (by decide) rfl (fun _ => rfl) rfl rfl

/- C5: REPO_PRIVATE_KEY handling. -/

/-- Secrets map holding the repository private key and one ordinary
secret. -/
def secretsWithKey : SecretsList := [("REPO_PRIVATE_KEY", "KEY"), ("A", "1")]

set_option maxRecDepth 100000 in
/-- Counterexample to C5: RunSSHDeploy passes the full secrets map as
the envVars argument of Execute, and Execute attempts to push every one
of its keys, including REPO_PRIVATE_KEY, through the native Setenv
mechanism of the transport. -/
theorem private_key_reaches_transport :
    runSSHDeployCall cfgS reqS secretsWithKey =
      some (buildDeployCommand cfgS reqS secretsWithKey, secretsWithKey) ∧
    "REPO_PRIVATE_KEY" ∈ executeSetenvKeys secretsWithKey :=
  ⟨rfl, by decide⟩

/-- C5 amended. The private-key entry never appears among the secret
environment entries of the script execution command and, when nonempty,
is staged through the dedicated key-file path of the deploy command;
however the envVars map RunSSHDeploy hands to the transport is the full
secrets map, every key of which Execute attempts to push through the
native Setenv mechanism. -/
theorem private_key_handling (cfg : SSHConfig) (req : DeployRequest)
    (secrets : SecretsList) (v : String)
    (hv : mapGet secrets "REPO_PRIVATE_KEY" = v) (hne : v ≠ "") :
    "REPO_PRIVATE_KEY" ∉ (scriptEnvPairs secrets).map Prod.fst ∧
    deployCommands cfg req secrets =
      ["rm -rf " ++ tmpDirOf cfg req, "mkdir -p " ++ tmpDirOf cfg req,
       "cd " ++ tmpDirOf cfg req]
      ++ buildPrivateRepoSSHConfig (tmpDirOf cfg req ++ "/.ssh") v
      ++ [buildCloneCommands (buildRepoURL req.Source.Repo true)
            (tmpDirOf cfg req ++ "/repo") req.Source.Branch req.Source.Commit
            true (tmpDirOf cfg req)]
      ++ [buildScriptExecutionCommand (deployDirOf cfg req) "deploy" req secrets]
      ++ ["rm -rf " ++ tmpDirOf cfg req] ∧
    (∀ cmd envs, runSSHDeployCall cfg req secrets = some (cmd, envs) →
      executeSetenvKeys envs = secrets.map Prod.fst) := by
  refine ⟨?_, ?_, ?_⟩
  · intro hmem
    rcases List.mem_map.mp hmem with ⟨kv, hkv, hfst⟩
    rcases List.mem_filter.mp hkv with ⟨_, hkeep⟩
    rw [hfst] at hkeep
    simp [bne_iff_ne] at hkeep
  · have hb : (v != "") = true := bne_iff_ne.mpr hne
    simp [deployCommands, tmpDirOf, deployDirOf, hv, hb, hne]
  · intro cmd envs h
    unfold runSSHDeployCall at h
    repeat' split at h
    all_goals simp_all [executeSetenvKeys]

/-- Witness for the amended C5 at the concrete secrets map. -/
theorem private_key_handling_witness :
    "REPO_PRIVATE_KEY" ∉ (scriptEnvPairs secretsWithKey).map Prod.fst ∧
    deployCommands cfgS reqS secretsWithKey =
      ["rm -rf " ++ tmpDirOf cfgS reqS, "mkdir -p " ++ tmpDirOf cfgS reqS,
       "cd " ++ tmpDirOf cfgS reqS]
      ++ buildPrivateRepoSSHConfig (tmpDirOf cfgS reqS ++ "/.ssh") "KEY"
      ++ [buildCloneCommands (buildRepoURL reqS.Source.Repo true)
            (tmpDirOf cfgS reqS ++ "/repo") reqS.Source.Branch reqS.Source.Commit
            true (tmpDirOf cfgS reqS)]
      ++ [buildScriptExecutionCommand (deployDirOf cfgS reqS) "deploy" reqS secretsWithKey]
      ++ ["rm -rf " ++ tmpDirOf cfgS reqS] ∧
    (∀ cmd envs, runSSHDeployCall cfgS reqS secretsWithKey = some (cmd, envs) →
      executeSetenvKeys envs = secretsWithKey.map Prod.fst) :=
  private_key_handling cfgS reqS secretsWithKey "KEY" rfl (by decide)

/- C6 and C7: structure and execution of the built commands. -/

/-- Rendering the structured script command reproduces
buildScriptExecutionCommand exactly. -/
theorem render_scriptCmdTree (dd st : String) (req : DeployRequest)
    (secrets : SecretsList) :
    render (scriptCmdTree dd st req secrets) =
      buildScriptExecutionCommand dd st req secrets := by
  apply String.ext
  simp [render, scriptCmdTree, chainAnd, renderStep,
    buildScriptExecutionCommand, String.data_append]

/-- Rendering the structured clone command reproduces
buildCloneCommands exactly. -/
theorem render_cloneCmdTree (repoURL repoDir branch commit : String)
    (hasPrivateKey : Bool) (tmpDir : String) :
    render (cloneCmdTree repoURL branch commit hasPrivateKey tmpDir) =
      buildCloneCommands repoURL repoDir branch commit hasPrivateKey tmpDir := by
  apply String.ext
  simp [render, cloneCmdTree, fallbackCloneTree, chainAnd, renderStep,
    mainCloneStep, buildCloneCommands, String.data_append]

/-- Existence-guarded part of the structured cleanup command. -/
def cleanupGuardTree (cfg : SSHConfig) (req : DeployRequest)
    (secrets : SecretsList) : ShCmd :=
  .ifDir (deployDirOf cfg req)
    (.seqAnd (.act (.cd (deployDirOf cfg req)))
      (scriptCmdTree (deployDirOf cfg req) "cleanup" req secrets))

/-- Decomposition of the structured cleanup command. -/
theorem cleanupCmdTree_eq (cfg : SSHConfig) (req : DeployRequest)
    (secrets : SecretsList) :
    cleanupCmdTree cfg req secrets =
      .seqAnd (cleanupGuardTree cfg req secrets)
        (.act (.rmrf (tmpDirOf cfg req))) := rfl

/-- Rendering the structured cleanup command reproduces
buildCleanupCommand exactly in the validated case. -/
theorem render_cleanupCmdTree (cfg : SSHConfig) (req : DeployRequest)
    (secrets : SecretsList) (h1 : req.Source.Repo ≠ "")
    (h2 : req.Metadata.Environment ≠ "") (h3 : cfg.BasePath ≠ "") :
    render (cleanupCmdTree cfg req secrets) =
      buildCleanupCommand cfg req secrets := by
  rw [buildCleanupCommand, if_neg h1, if_neg h2, if_neg h3]
  apply String.ext
  simp [render, cleanupCmdTree, cleanupGuardTree, scriptCmdTree, chainAnd,
    renderStep, buildScriptExecutionCommand, tmpDirOf, deployDirOf,
    intercalate_pair, String.data_append]

/-- Evaluation of a primitive step. -/
theorem runSh_act (w : World) (s : Step) :
    runSh w (.act s) = (w.stepStatus s, [s]) := by
  simp [runSh]

/-- One-step evaluation of an and-chain whose first part succeeds. -/
theorem runSh_seqAnd_pos (w : World) (a b : ShCmd)
    (h : (runSh w a).1 = 0) :
    runSh w (.seqAnd a b) = ((runSh w b).1, (runSh w a).2 ++ (runSh w b).2) := by
  simp only [runSh]
  rw [if_pos h]

/-- One-step evaluation of an and-chain whose first part fails. -/
theorem runSh_seqAnd_neg (w : World) (a b : ShCmd)
    (h : (runSh w a).1 ≠ 0) :
    runSh w (.seqAnd a b) = runSh w a := by
  simp only [runSh]
  rw [if_neg h]

/-- Every step a run executes is a step of the command tree. -/
theorem runSh_trace_sublist (w : World) (c : ShCmd) :
    (runSh w c).2 ⊆ c.steps := by
  induction c with
  | act s => simp [runSh, ShCmd.steps]
  | seqAnd a b iha ihb =>
    by_cases h : (runSh w a).1 = 0
    · simp only [runSh, h, if_pos]
      exact List.append_subset.mpr
        ⟨iha.trans (List.subset_append_left _ _),
         ihb.trans (List.subset_append_right _ _)⟩
    · simp only [runSh, h, if_neg, if_false]
      exact iha.trans (List.subset_append_left _ _)
  | orElse a b iha ihb =>
    by_cases h : (runSh w a).1 = 0
    · simp only [runSh, h, if_pos]
      exact iha.trans (List.subset_append_left _ _)
    · simp only [runSh, h, if_neg, if_false]
      exact List.append_subset.mpr
        ⟨iha.trans (List.subset_append_left _ _),
         ihb.trans (List.subset_append_right _ _)⟩
  | ifDir p body ih =>
    by_cases h : w.dirExists p
    · simpa [runSh, h, ShCmd.steps] using ih
    · simp [runSh, h, ShCmd.steps]

/-- The steps of the cleanup guard contain no teardown step. -/
theorem cleanupGuardTree_no_rmrf (cfg : SSHConfig) (req : DeployRequest)
    (secrets : SecretsList) (p : String) :
    Step.rmrf p ∉ (cleanupGuardTree cfg req secrets).steps := by
  simp [cleanupGuardTree, scriptCmdTree, chainAnd, ShCmd.steps]

/-- C6 amended. In the validated case the cleanup command renders as the
existence-guarded cleanup script invocation followed by workspace
removal and contains no clone step; a missing deploy directory is not an
error and teardown still runs; but teardown runs exactly when the
guarded block succeeds, so a failing cleanup script skips it. -/
theorem cleanup_command_shape (cfg : SSHConfig) (req : DeployRequest)
    (secrets : SecretsList) (wMiss : World)
    (h1 : req.Source.Repo ≠ "") (h2 : req.Metadata.Environment ≠ "")
    (h3 : cfg.BasePath ≠ "")
    (hMiss : wMiss.dirExists (deployDirOf cfg req) = false) :
    render (cleanupCmdTree cfg req secrets) = buildCleanupCommand cfg req secrets ∧
    (∀ s ∈ (cleanupCmdTree cfg req secrets).steps, isCloneStep s = false) ∧
    runSh wMiss (cleanupCmdTree cfg req secrets) =
      (wMiss.stepStatus (.rmrf (tmpDirOf cfg req)), [.rmrf (tmpDirOf cfg req)]) ∧
    (∀ w : World, Step.rmrf (tmpDirOf cfg req) ∈ (runSh w (cleanupCmdTree cfg req secrets)).2 ↔
      (runSh w (cleanupGuardTree cfg req secrets)).1 = 0) := by
  refine ⟨render_cleanupCmdTree cfg req secrets h1 h2 h3, ?_, ?_, ?_⟩
  · intro s hs
    simp only [cleanupCmdTree_eq, ShCmd.steps, cleanupGuardTree, scriptCmdTree,
      chainAnd, List.mem_append, List.mem_cons, List.mem_singleton] at hs
    rcases hs with hs | hs <;> simp at hs <;> rcases hs with rfl | rfl | rfl
      <;> rfl
  · rw [cleanupCmdTree_eq]
    simp [runSh, cleanupGuardTree, hMiss]
  · intro w
    rw [cleanupCmdTree_eq]
    by_cases h : (runSh w (cleanupGuardTree cfg req secrets)).1 = 0
    · rw [runSh_seqAnd_pos _ _ _ h, runSh_act]
      simp [h]
    · rw [runSh_seqAnd_neg _ _ _ h]
      constructor
      · intro hmem
        exact absurd (runSh_trace_sublist w _ hmem)
          (cleanupGuardTree_no_rmrf cfg req secrets _)
      · intro h0
        exact absurd h0 h

/-- World in which every directory exists and exactly the script
invocation fails. -/
def wScriptFail : World :=
  { dirExists := fun _ => true,
    stepStatus := fun s => if isScriptStep s then 1 else 0 }

/-- World in which no directory exists and every step succeeds. -/
def wAllMissing : World :=
  { dirExists := fun _ => false,
    stepStatus := fun _ => 0 }

set_option maxRecDepth 100000 in
/-- Counterexample to C6: when the deploy directory exists and the
cleanup script fails, the and-join skips the workspace teardown. -/
theorem cleanup_teardown_skipped_on_script_failure :
    wScriptFail.dirExists (deployDirOf cfgS reqS) = true ∧
    Step.bashScript (String.intercalate " " (envVarsOf reqS [])) "cleanup.sh"
      ∈ (runSh wScriptFail (cleanupCmdTree cfgS reqS [])).2 ∧
    Step.rmrf (tmpDirOf cfgS reqS)
      ∉ (runSh wScriptFail (cleanupCmdTree cfgS reqS [])).2 :=
  ⟨rfl, by decide, by decide⟩

/-- Witness for the amended C6 at the sample request and a world with
no directories. -/
theorem cleanup_command_shape_witness :
    render (cleanupCmdTree cfgS reqS []) = buildCleanupCommand cfgS reqS [] ∧
    (∀ s ∈ (cleanupCmdTree cfgS reqS []).steps, isCloneStep s = false) ∧
    runSh wAllMissing (cleanupCmdTree cfgS reqS []) =
      (wAllMissing.stepStatus (.rmrf (tmpDirOf cfgS reqS)),
        [.rmrf (tmpDirOf cfgS reqS)]) ∧
    (∀ w : World, Step.rmrf (tmpDirOf cfgS reqS)
        ∈ (runSh w (cleanupCmdTree cfgS reqS [])).2 ↔
      (runSh w (cleanupGuardTree cfgS reqS [])).1 = 0) :=
  cleanup_command_shape cfgS reqS [] wAllMissing
    (by decide) (by decide) (by decide) rfl

/- C7: clone with fallback. -/

/-- One-step evaluation of an or-else whose first alternative succeeds. -/
theorem runSh_orElse_pos (w : World) (a b : ShCmd)
    (h : (runSh w a).1 = 0) :
    runSh w (.orElse a b) = runSh w a := by
  simp only [runSh]
  rw [if_pos h]

/-- One-step evaluation of an or-else whose first alternative fails. -/
theorem runSh_orElse_neg (w : World) (a b : ShCmd)
    (h : (runSh w a).1 ≠ 0) :
    runSh w (.orElse a b) = ((runSh w b).1, (runSh w a).2 ++ (runSh w b).2) := by
  simp only [runSh]
  rw [if_neg h]

/-- C7. The source-fetch command renders as exactly the two
parenthesised alternatives joined by the shell or-else operator; when
the shallow branch clone exits zero the fallback never runs, and for
every nonzero exit status of the shallow clone the fallback chain runs,
beginning with the full clone. -/
theorem clone_fallback_structure (repoURL repoDir branch commit : String)
    (hasPrivateKey : Bool) (tmpDir : String) (w1 w2 : World)
    (h1 : w1.stepStatus (mainCloneStep repoURL branch hasPrivateKey tmpDir) = 0)
    (h2 : w2.stepStatus (mainCloneStep repoURL branch hasPrivateKey tmpDir) ≠ 0) :
    render (cloneCmdTree repoURL branch commit hasPrivateKey tmpDir) =
      buildCloneCommands repoURL repoDir branch commit hasPrivateKey tmpDir ∧
    runSh w1 (cloneCmdTree repoURL branch commit hasPrivateKey tmpDir) =
      (0, [mainCloneStep repoURL branch hasPrivateKey tmpDir]) ∧
    (runSh w2 (cloneCmdTree repoURL branch commit hasPrivateKey tmpDir)).2 =
      mainCloneStep repoURL branch hasPrivateKey tmpDir ::
        (runSh w2 (fallbackCloneTree repoURL commit hasPrivateKey tmpDir)).2 ∧
    Step.gitCloneFull (gitPfxOf hasPrivateKey tmpDir) repoURL
      ∈ (runSh w2 (fallbackCloneTree repoURL commit hasPrivateKey tmpDir)).2 := by
  refine ⟨render_cloneCmdTree repoURL repoDir branch commit hasPrivateKey tmpDir,
    ?_, ?_, ?_⟩
  · have hm : (runSh w1 (ShCmd.act
        (mainCloneStep repoURL branch hasPrivateKey tmpDir))).1 = 0 := by
      rw [runSh_act]
      exact h1
    simp only [cloneCmdTree]
    rw [runSh_orElse_pos _ _ _ hm, runSh_act, h1]
  · have hm : (runSh w2 (ShCmd.act
        (mainCloneStep repoURL branch hasPrivateKey tmpDir))).1 ≠ 0 := by
      rw [runSh_act]
      exact h2
    simp only [cloneCmdTree]
    rw [runSh_orElse_neg _ _ _ hm, runSh_act]
    simp
  · simp only [fallbackCloneTree, chainAnd]
    by_cases hf : (runSh w2 (ShCmd.act
        (Step.gitCloneFull (gitPfxOf hasPrivateKey tmpDir) repoURL))).1 = 0
    · rw [runSh_seqAnd_pos _ _ _ hf, runSh_act]
      simp
    · rw [runSh_seqAnd_neg _ _ _ hf, runSh_act]
      simp

/-- World in which the shallow clone exits with status 128 and all else
succeeds. -/
def wShallowFail : World :=
  { dirExists := fun _ => true,
    stepStatus := fun s =>
      match s with
      | .gitCloneShallow _ _ _ => 128
      | _ => 0 }

/-- World in which every step succeeds. -/
def wAllOk : World :=
  { dirExists := fun _ => true,
    stepStatus := fun _ => 0 }

/-- Witness for C7 at the sample repository under a succeeding world and
a world whose shallow clone fails. -/
theorem clone_fallback_structure_witness :
    render (cloneCmdTree "https://github.com/org/app" "main" "abc123" false "/srv/cd/dev/org/app") =
      buildCloneCommands "https://github.com/org/app" "/srv/cd/dev/org/app/repo"
        "main" "abc123" false "/srv/cd/dev/org/app" ∧
    runSh wAllOk (cloneCmdTree "https://github.com/org/app" "main" "abc123" false "/srv/cd/dev/org/app") =
      (0, [mainCloneStep "https://github.com/org/app" "main" false "/srv/cd/dev/org/app"]) ∧
    (runSh wShallowFail (cloneCmdTree "https://github.com/org/app" "main" "abc123" false "/srv/cd/dev/org/app")).2 =
      mainCloneStep "https://github.com/org/app" "main" false "/srv/cd/dev/org/app" ::
        (runSh wShallowFail (fallbackCloneTree "https://github.com/org/app" "abc123" false "/srv/cd/dev/org/app")).2 ∧
    Step.gitCloneFull (gitPfxOf false "/srv/cd/dev/org/app") "https://github.com/org/app"
      ∈ (runSh wShallowFail (fallbackCloneTree "https://github.com/org/app" "abc123" false "/srv/cd/dev/org/app")).2 :=
  clone_fallback_structure "https://github.com/org/app" "/srv/cd/dev/org/app/repo"
    "main" "abc123" false "/srv/cd/dev/org/app" wAllOk wShallowFail rfl (by decide)

/- C8: cache expiry discipline. -/

/-- C8. A fetch stores its result with expiry now plus TTL and returns
it; a later lookup strictly before the expiry is served from the cache
even when upstream fails; a lookup at or after the expiry falls through
to upstream while the stale entry stays stored; and on any cache state
an entry is served exactly when the current time is strictly before its
expiry. -/
theorem cache_expiry_discipline
    (cache cache2 : CacheState) (now now2 now3 : Nat)
    (ws env name path v m w2 : String) (item : CacheItem)
    (hmiss : cache (rawCacheKey ws env path name) = none)
    (hfresh : now2 < now + cacheTTL)
    (hexp : now + cacheTTL ≤ now3)
    (hitem : cache2 (rawCacheKey ws env path name) = some item)
    (hval : item.secrets.lookup name = some w2) :
    (fetchSecretRaw (.ok v) now cache ws env name path).1 = .ok v ∧
    (fetchSecretRaw (.ok v) now cache ws env name path).2
        (rawCacheKey ws env path name) = some ⟨[(name, v)], now + cacheTTL⟩ ∧
    (fetchSecretRaw (.error m) now2
        (fetchSecretRaw (.ok v) now cache ws env name path).2
        ws env name path).1 = .ok v ∧
    (fetchSecretRaw (.error m) now3
        (fetchSecretRaw (.ok v) now cache ws env name path).2
        ws env name path).1 = .error m ∧
    (fetchSecretRaw (.error m) now3
        (fetchSecretRaw (.ok v) now cache ws env name path).2
        ws env name path).2 (rawCacheKey ws env path name) =
      some ⟨[(name, v)], now + cacheTTL⟩ ∧
    (∀ t : Nat, (fetchSecretRaw (.error m) t cache2 ws env name path).1 = .ok w2 ↔
      t < item.expiresAt) := by
  have hnot3 : ¬ now3 < now + cacheTTL := Nat.not_lt.mpr hexp
  refine ⟨?_, ?_, ?_, ?_, ?_, ?_⟩
  · simp [fetchSecretRaw, hmiss]
  · simp [fetchSecretRaw, hmiss]
  · simp [fetchSecretRaw, hmiss, hfresh, List.lookup]
  · simp [fetchSecretRaw, hmiss, hnot3]
  · simp [fetchSecretRaw, hmiss, hnot3]
  · intro t
    by_cases ht : t < item.expiresAt
    · simp [fetchSecretRaw, hitem, ht, hval]
    · simp [fetchSecretRaw, hitem, ht]

/-- Witness for C8 at a concrete timeline around the five-minute TTL. -/
theorem cache_expiry_discipline_witness :
    (fetchSecretRaw (.ok "s3cret") 1000 (fun _ => none) "ws" "dev" "DB" "/").1 =
      .ok "s3cret" ∧
    (fetchSecretRaw (.ok "s3cret") 1000 (fun _ => none) "ws" "dev" "DB" "/").2
        (rawCacheKey "ws" "dev" "/" "DB") = some ⟨[("DB", "s3cret")], 1000 + cacheTTL⟩ ∧
    (fetchSecretRaw (.error "down") 1001
        (fetchSecretRaw (.ok "s3cret") 1000 (fun _ => none) "ws" "dev" "DB" "/").2
        "ws" "dev" "DB" "/").1 = .ok "s3cret" ∧
    (fetchSecretRaw (.error "down") 1300
        (fetchSecretRaw (.ok "s3cret") 1000 (fun _ => none) "ws" "dev" "DB" "/").2
        "ws" "dev" "DB" "/").1 = .error "down" ∧
    (fetchSecretRaw (.error "down") 1300
        (fetchSecretRaw (.ok "s3cret") 1000 (fun _ => none) "ws" "dev" "DB" "/").2
        "ws" "dev" "DB" "/").2 (rawCacheKey "ws" "dev" "/" "DB") =
      some ⟨[("DB", "s3cret")], 1000 + cacheTTL⟩ ∧
    (∀ t : Nat, (fetchSecretRaw (.error "down") t
        (fun k => if k = rawCacheKey "ws" "dev" "/" "DB"
          then some ⟨[("DB", "s3cret")], 1300⟩ else none)
        "ws" "dev" "DB" "/").1 = .ok "s3cret" ↔ t < 1300) :=
  cache_expiry_discipline (fun _ => none)
    (fun k => if k = rawCacheKey "ws" "dev" "/" "DB"
      then some ⟨[("DB", "s3cret")], 1300⟩ else none)
    1000 1001 1300 "ws" "dev" "DB" "/" "s3cret" "down" "s3cret"
    ⟨[("DB", "s3cret")], 1300⟩ rfl (by decide) (by decide) (by simp) (by decide)

/- C9: output on failure paths of the remote executor. -/

/-- Counterexample to C9: when the context wins the select (caller-side
cancellation or timeout), executeWithContext returns an empty output,
discarding the combined output the session had captured. -/
theorem execute_cancel_discards_output :
    executeTail true "context deadline exceeded" ⟨"partial build log", none⟩ =
      ("", some "failed to execute command (exit code may indicate specific error): context deadline exceeded") ∧
    ("partial build log" : String) ≠ "" :=
  ⟨rfl, by decide⟩

/-- C9 amended. On a remote command failure the executor returns the
captured combined output alongside the wrapped error, and on a
successful command it returns the captured output without error; but on
the cancellation path it returns the context error with an empty output
string, discarding whatever the session captured. -/
theorem execute_output_return_paths (ctxErr : String) (res : ExecOutcome)
    (e : String) (h : res.err = some e) :
    executeTail false ctxErr res =
      (res.output,
        some ("failed to execute command (exit code may indicate specific error): " ++ e)) ∧
    (∀ out : String, executeTail false ctxErr ⟨out, none⟩ = (out, none)) ∧
    executeTail true ctxErr res =
      ("", some ("failed to execute command (exit code may indicate specific error): " ++ ctxErr)) := by
  refine ⟨?_, ?_, ?_⟩
  · simp [executeTail, executeWithContext, h]
  · intro out
    simp [executeTail, executeWithContext]
  · simp [executeTail, executeWithContext]

/-- Witness for the amended C9 at a concrete failed command. -/
theorem execute_output_return_paths_witness :
    executeTail false "ctx" ⟨"fatal: not a repository", some "exit 128"⟩ =
      ("fatal: not a repository",
        some ("failed to execute command (exit code may indicate specific error): " ++ "exit 128")) ∧
    (∀ out : String, executeTail false "ctx" ⟨out, none⟩ = (out, none)) ∧
    executeTail true "ctx" ⟨"fatal: not a repository", some "exit 128"⟩ =
      ("", some ("failed to execute command (exit code may indicate specific error): " ++ "ctx")) :=
  execute_output_return_paths "ctx" ⟨"fatal: not a repository", some "exit 128"⟩
    "exit 128" rfl

/- C10: duplicate environment names in secret mappings. -/

/-- Splitting a find? over an appended list. -/
theorem findQ_append {α : Type} (p : α → Bool) :
    ∀ (l1 l2 : List α), (l1 ++ l2).find? p =
      (match l1.find? p with
       | some a => some a
       | none => l2.find? p) := by
  intro l1 l2
  induction l1 with
  | nil => simp
  | cons a t ih =>
    by_cases hp : p a
    · simp [List.find?_cons_of_pos _ hp]
    · simp [List.find?_cons_of_neg _ hp, ih]

/-- Accumulator form of C10: a run of the fetch loop in which every
fetch succeeds returns a map binding each environment name to the value
of the last mapping in list order carrying it, falling back to the
accumulator. -/
theorem fetchByMappingGo_last_wins (fetch : SecretMapping → Except String String) :
    ∀ (ms : List SecretMapping) (acc : String → Option String),
      (∀ m ∈ ms, ∃ v, fetch m = .ok v) →
      ∃ r, fetchByMappingGo fetch ms acc = .ok r ∧
        ∀ name, r name =
          (match ms.reverse.find? (fun m => m.EnvName == name) with
           | some m => (fetch m).toOption
           | none => acc name) := by
  intro ms
  induction ms with
  | nil =>
    intro acc _
    exact ⟨acc, rfl, fun name => by simp⟩
  | cons m tl ih =>
    intro acc hok
    obtain ⟨v, hv⟩ := hok m (List.mem_cons_self m tl)
    have hok2 : ∀ x ∈ tl, ∃ w, fetch x = .ok w :=
      fun x hx => hok x (List.mem_cons_of_mem m hx)
    obtain ⟨r, hr, hspec⟩ := ih (fun k => if k = m.EnvName then some v else acc k) hok2
    refine ⟨r, ?_, ?_⟩
    · simp [fetchByMappingGo, hv, hr]
    · intro name
      rw [hspec name]
      have hrev : (m :: tl).reverse = tl.reverse ++ [m] := by simp
      rw [hrev, findQ_append]
      cases hfind : tl.reverse.find? (fun x => x.EnvName == name) with
      | some x => rfl
      | none =>
        by_cases hn : name = m.EnvName
        · have hb : (m.EnvName == name) = true := beq_iff_eq.mpr hn.symm
          simp [List.find?_cons_of_pos, hb, hn, hv, Except.toOption]
        · have hb : (m.EnvName == name) = false :=
            beq_eq_false_iff_ne.mpr (fun hcontr => hn hcontr.symm)
          simp [hb, hn]

/-- C10. When every upstream fetch succeeds, FetchSecretsByMapping
returns without error a map binding each duplicated environment name to
the fetched value of the last mapping carrying it in list order; the
duplication is resolved silently by overwriting. -/
theorem fetch_by_mapping_last_wins (fetch : SecretMapping → Except String String)
    (mappings : List SecretMapping)
    (hok : ∀ m ∈ mappings, ∃ v, fetch m = .ok v) :
    ∃ r, FetchSecretsByMapping fetch mappings = .ok r ∧
      ∀ name, r name =
        (match mappings.reverse.find? (fun m => m.EnvName == name) with
         | some m => (fetch m).toOption
         | none => none) :=
  fetchByMappingGo_last_wins fetch mappings (fun _ => none) hok

/-- Two mappings bound to the same environment variable DB_URL. -/
def dupMapA : SecretMapping := { Path := "/a", SecretName := "s1", EnvName := "DB_URL" }

/-- Second mapping bound to DB_URL, later in list order. -/
def dupMapB : SecretMapping := { Path := "/b", SecretName := "s2", EnvName := "DB_URL" }

/-- Fetch oracle distinguishing the two duplicate mappings. -/
def dupFetch (m : SecretMapping) : Except String String :=
  if m.SecretName = "s1" then .ok "v1" else .ok "v2"

/-- Witness for C10 at a list with a duplicated environment name. -/
theorem fetch_by_mapping_last_wins_witness :
    ∃ r, FetchSecretsByMapping dupFetch [dupMapA, dupMapB] = .ok r ∧
      ∀ name, r name =
        (match ([dupMapA, dupMapB] : List SecretMapping).reverse.find?
            (fun m => m.EnvName == name) with
         | some m => (dupFetch m).toOption
         | none => none) :=
  fetch_by_mapping_last_wins dupFetch [dupMapA, dupMapB]
    (by
      intro m hm
      rcases List.mem_cons.mp hm with rfl | hm2
      · exact ⟨"v1", rfl⟩
      · rcases List.mem_singleton.mp hm2 with rfl
        exact ⟨"v2", rfl⟩)
